import Mathlib

/-!
Verification development for the Discord Message Fetcher
(`Discord Message Fetcher/main.py`).

The Python source is shallowly embedded below: dictionaries coming from the
JSON API become structures with `Option` fields (a missing key is `none`,
`dict.get(k, d)` becomes `Option.getD`), Python lists become `List`, the
`requests` HTTP layer becomes an explicit response function passed in, and
`sys.exit(1)` on an API failure becomes an `Except` error value.  All
definitions are executable.
-/

namespace DMF

/-! ## Data model

Message records are JSON dictionaries in the source.  Only the keys the
program reads are modelled.  Message ids are opaque snowflake strings used
solely as pagination cursors and compared only for equality; they are
modelled as `Nat`. -/

structure Author where
  username : Option String
deriving DecidableEq, Repr

structure Attachment where
  filename : Option String
  url : Option String
deriving DecidableEq, Repr

/-- Sub-record for `embed['image']`, `embed['thumbnail']`, `embed['video']`:
a dictionary in which the program only ever tests and reads the `url` key. -/
structure EmbedMedia where
  url : Option String
deriving DecidableEq, Repr

structure Embed where
  url : Option String
  image : Option EmbedMedia
  thumbnail : Option EmbedMedia
  video : Option EmbedMedia
deriving DecidableEq, Repr

structure Message where
  id : Nat
  author : Option Author
  timestamp : Option String
  content : Option String
  attachments : List Attachment
  embeds : List Embed
deriving DecidableEq, Repr

/-! ## Link extraction (`extract_links`, main.py lines 151–205)

The URL regular expression at lines 162–164 is

  `http[s]?://(?:[a-zA-Z]|[0-9]|[$-_@.&+]|[!*\(\),]|(?:%[0-9a-fA-F][0-9a-fA-F]))+`

Inside the character class `[$-_@.&+]` the token `$-_` is a *range*: every
ASCII character from `$` (0x24) to `_` (0x5F) inclusive.  The characters
`@ . & +` listed after the range, the class `[!*(),]` (only `!` is outside
the range) and the `%XX` alternative (each of `%`, hex digits lies in the
range or in `[a-zA-Z]`/`[0-9]`) therefore add nothing beyond `!`; each
iteration of the `+` consumes exactly one character of the union class, so
a match is `http://` or `https://` followed by the maximal nonempty run of
class characters. -/

/-- One character of the regex's repeated class, alternative by alternative. -/
def isUrlChar (c : Char) : Bool :=
  c.isAlpha                                        -- [a-zA-Z]
  || c.isDigit                                     -- [0-9]
  || (decide ('$' ≤ c) && decide (c ≤ '_'))        -- the range $-_ in [$-_@.&+]
  || c == '@' || c == '.' || c == '&' || c == '+'  -- the rest of [$-_@.&+]
  || c == '!' || c == '*' || c == '(' || c == ')' || c == ','  -- [!*\(\),]
  || c == '%'                                      -- leading byte of %XX

/-- Greedy match of the regex at the very start of `cs`: the scheme
(`https://` tried before `http://`, as the greedy `[s]?` does) followed by a
nonempty maximal run of class characters.  Returns the matched string and
the remaining input. -/
def tryMatchUrl (cs : List Char) : Option (String × List Char) :=
  match cs with
  | 'h' :: 't' :: 't' :: 'p' :: 's' :: ':' :: '/' :: '/' :: rest =>
    let run := rest.takeWhile isUrlChar
    if run.isEmpty then none
    else some (("https://".toList ++ run).asString, rest.dropWhile isUrlChar)
  | 'h' :: 't' :: 't' :: 'p' :: ':' :: '/' :: '/' :: rest =>
    let run := rest.takeWhile isUrlChar
    if run.isEmpty then none
    else some (("http://".toList ++ run).asString, rest.dropWhile isUrlChar)
  | _ => none

/-- `re.findall` for the URL pattern: scan left to right, at each position
emit the greedy match starting there (if any) and resume after it.  The
fuel argument is bounded by the input length; every step consumes at least
one character. -/
def findUrlsAux : Nat → List Char → List String
  | 0, _ => []
  | _ + 1, [] => []
  | fuel + 1, c :: rest =>
    match tryMatchUrl (c :: rest) with
    | some (m, rest') => m :: findUrlsAux fuel rest'
    | none => findUrlsAux fuel rest

/-- `url_pattern.findall content` (main.py line 171). -/
def findUrls (s : String) : List String :=
  findUrlsAux s.toList.length s.toList

/-- The literal reading of the spec's symbol set for URL characters:
letters, digits, and the individual symbols `$ - _ @ . & + ! * ( ) ,`
(the `%` of a `%XX` escape included).  This is what the specification's
words describe, for comparison against `isUrlChar` taken from the source. -/
def specUrlChar (c : Char) : Bool :=
  c.isAlpha || c.isDigit
  || c == '$' || c == '-' || c == '_' || c == '@' || c == '.' || c == '&'
  || c == '+' || c == '!' || c == '*' || c == '(' || c == ')' || c == ','
  || c == '%'

/-- The attachment loop of `extract_links` (lines 174–179): append each
attachment's URL, but only when it is truthy (`if url:`, i.e. non-empty). -/
def attachmentLoop (links : List String) (attachments : List Attachment) :
    List String :=
  attachments.foldl (fun links att =>
    let url := att.url.getD ""
    if url ≠ "" then links ++ [url] else links) links

/-- The embed loop of `extract_links` (lines 181–195): append the embed's
direct URL only when the key is present *and* the value truthy
(`if 'url' in embed and embed['url']:`), then the image, thumbnail and
video URLs whenever the `url` key is present in the sub-record — with no
truthiness test on the value. -/
def embedLoop (links : List String) (embeds : List Embed) : List String :=
  embeds.foldl (fun links embed =>
    let links := match embed.url with
      | some u => if u ≠ "" then links ++ [u] else links
      | none => links
    let links := match embed.image with
      | some media => match media.url with
        | some u => links ++ [u]
        | none => links
      | none => links
    let links := match embed.thumbnail with
      | some media => match media.url with
        | some u => links ++ [u]
        | none => links
      | none => links
    let links := match embed.video with
      | some media => match media.url with
        | some u => links ++ [u]
        | none => links
      | none => links
    links) links

/-- The link-collection loop of `extract_links` (lines 166–195): one pass
over the messages, appending content matches, then attachment URLs, then
embed URLs. -/
def rawLinks (messages : List Message) : List String :=
  messages.foldl (fun links message =>
    let content := message.content.getD ""
    let links := links ++ findUrls content
    let links := attachmentLoop links message.attachments
    let links := embedLoop links message.embeds
    links) []

/-- The deduplication loop of `extract_links` (lines 197–205): a `seen` set
(modelled as a list queried by membership) and an output list appended to in
input order. -/
def uniqueLinks (links : List String) : List String :=
  (links.foldl (fun acc link =>
    if link ∈ acc.1 then acc else (link :: acc.1, acc.2 ++ [link]))
    (([] : List String), ([] : List String))).2

/-- `extract_links` (main.py lines 151–205). -/
def extract_links (messages : List Message) : List String :=
  uniqueLinks (rawLinks messages)

/-! ## Formatter (`format_message`, main.py lines 111–148)

The timestamp is parsed with the standard library's
`datetime.fromisoformat(timestamp.replace('Z', '+00:00'))` and rendered with
`strftime('%Y-%m-%d %H:%M:%S UTC')`; any parse failure falls back to the raw
string.  `fromisoformat` is external library code; it is modelled here
restricted to the ISO-8601 shapes Discord timestamps take:
`YYYY-MM-DD`, optionally followed by a `T` or space separator and
`HH:MM:SS`, an optional fractional-second part of one to six digits, and an
optional `+HH:MM` / `-HH:MM` offset, with the usual range validation
(months 1–12, days valid for the month and leap year, hours ≤ 23,
minutes/seconds ≤ 59). -/

structure PyDateTime where
  year : Nat
  month : Nat
  day : Nat
  hour : Nat
  minute : Nat
  second : Nat
deriving DecidableEq, Repr

/-- Reads exactly `n` leading digits as a number. -/
def readDigits : Nat → List Char → Option (Nat × List Char)
  | 0, cs => some (0, cs)
  | n + 1, c :: cs =>
    if c.isDigit then
      match readDigits n cs with
      | some (v, rest) => some ((c.toNat - '0'.toNat) * 10 ^ n + v, rest)
      | none => none
    else none
  | _ + 1, [] => none

def isLeapYear (y : Nat) : Bool :=
  y % 4 == 0 && (y % 100 != 0 || y % 400 == 0)

def daysInMonth (y m : Nat) : Nat :=
  if m == 2 then (if isLeapYear y then 29 else 28)
  else if m == 4 || m == 6 || m == 9 || m == 11 then 30
  else 31

/-- Drops a fractional-second part `.d{1,6}` if one starts here. -/
def skipFraction (cs : List Char) : Option (List Char) :=
  match cs with
  | '.' :: rest =>
    let digits := rest.takeWhile Char.isDigit
    if digits.isEmpty || digits.length > 6 then none
    else some (rest.dropWhile Char.isDigit)
  | _ => some cs

/-- Consumes a trailing UTC-offset part `±HH:MM` (validated), or nothing. -/
def skipOffset (cs : List Char) : Option (List Char) :=
  match cs with
  | [] => some []
  | sign :: rest =>
    if sign == '+' || sign == '-' then
      match readDigits 2 rest with
      | some (oh, ':' :: rest') =>
        match readDigits 2 rest' with
        | some (om, rest'') =>
          if oh ≤ 23 && om ≤ 59 then some rest'' else none
        | none => none
      | _ => none
    else none

/-- Modelled from the Python standard library's `datetime.fromisoformat`
(external to this repository), restricted as described above.  Returns the
parsed field values, or `none` where Python raises `ValueError`. -/
def fromisoformat (s : String) : Option PyDateTime :=
  match readDigits 4 s.toList with
  | some (y, '-' :: cs) =>
    match readDigits 2 cs with
    | some (mo, '-' :: cs') =>
      match readDigits 2 cs' with
      | some (d, rest) =>
        if 1 ≤ mo && mo ≤ 12 && 1 ≤ d && d ≤ daysInMonth y mo then
          match rest with
          | [] => some ⟨y, mo, d, 0, 0, 0⟩
          | sep :: cs'' =>
            if sep == 'T' || sep == ' ' then
              match readDigits 2 cs'' with
              | some (h, ':' :: t1) =>
                match readDigits 2 t1 with
                | some (mi, ':' :: t2) =>
                  match readDigits 2 t2 with
                  | some (sec, t3) =>
                    if h ≤ 23 && mi ≤ 59 && sec ≤ 59 then
                      match skipFraction t3 with
                      | some t4 =>
                        match skipOffset t4 with
                        | some [] => some ⟨y, mo, d, h, mi, sec⟩
                        | _ => none
                      | none => none
                    else none
                  | none => none
                | _ => none
              | _ => none
            else none
        else none
      | none => none
    | _ => none
  | _ => none

/-- Zero-pads a number to `w` digits, as `strftime`'s numeric fields do. -/
def padNum (w n : Nat) : String :=
  let s := toString n
  (List.replicate (w - s.length) '0').asString ++ s

/-- `dt.strftime('%Y-%m-%d %H:%M:%S UTC')` for the parsed fields. -/
def strftimeUTC (dt : PyDateTime) : String :=
  padNum 4 dt.year ++ "-" ++ padNum 2 dt.month ++ "-" ++ padNum 2 dt.day ++ " "
    ++ padNum 2 dt.hour ++ ":" ++ padNum 2 dt.minute ++ ":" ++ padNum 2 dt.second
    ++ " UTC"

/-- Python's `str.replace` (replace every non-overlapping occurrence of
`pattern`, scanning left to right), on character lists.  The fuel is the
input length; each step consumes at least one character because the only
call site uses the nonempty pattern `"Z"`. -/
def pyReplaceAux (pattern replacement : List Char) : Nat → List Char → List Char
  | _, [] => []
  | 0, cs => cs
  | fuel + 1, c :: cs =>
    if pattern.isPrefixOf (c :: cs) then
      replacement ++ pyReplaceAux pattern replacement fuel ((c :: cs).drop pattern.length)
    else
      c :: pyReplaceAux pattern replacement fuel cs

/-- `s.replace(pattern, replacement)` from Python (for nonempty patterns). -/
def pyReplace (s pattern replacement : String) : String :=
  (pyReplaceAux pattern.toList replacement.toList s.toList.length s.toList).asString

/-- The `try`/`except` timestamp block of `format_message` (lines 127–131):
parse after replacing every `Z` with `+00:00`; on failure fall back to the
raw string. -/
def formattedTime (timestamp : String) : String :=
  match fromisoformat (pyReplace timestamp "Z" "+00:00") with
  | some dt => strftimeUTC dt
  | none => timestamp

/-- `format_message` (main.py lines 111–148). -/
def format_message (message : Message) : String :=
  let username := match message.author with
    | some a => a.username.getD "Unknown"
    | none => "Unknown"
  let timestamp := message.timestamp.getD ""
  let content := message.content.getD ""
  let formatted := "[" ++ formattedTime timestamp ++ "] " ++ username ++ ": " ++ content
  let formatted :=
    if message.attachments.isEmpty then formatted
    else message.attachments.foldl (fun acc att =>
      acc ++ "\n    - " ++ att.filename.getD "file" ++ ": " ++ att.url.getD "")
      (formatted ++ "\n  Attachments:")
  let formatted :=
    if message.embeds.isEmpty then formatted
    else formatted ++ "\n  Embeds: " ++ toString message.embeds.length ++ " embed(s)"
  formatted

/-! ## Paginator (`fetch_messages`, main.py lines 37–108)

The HTTP layer is abstracted as a response function from the request's
cursor (the optional `before` parameter) and page size (the `limit`
parameter) to an HTTP response.  `sys.exit(1)` on a non-200 status becomes
a distinct `Except` error per status, exactly mirroring the
`elif` chain at lines 89–102.  The `limit` argument is a positive integer
(the `'all'` sentinel, `float('inf')`, is outside the claims considered
here).  Each successful call also records the request issued, so that the
request trace is available to reason about. -/

structure Req where
  pageLimit : Nat
  before : Option Nat
deriving DecidableEq, Repr

structure HttpResponse where
  status : Nat
  messages : List Message
  body : String
deriving Repr

inductive FetchError where
  | authenticationError            -- 401: "Error: Invalid Discord token"
  | authorizationError             -- 403: "Error: Access forbidden ..."
  | notFoundError                  -- 404: "Error: Channel not found ..."
  | httpError (status : Nat) (body : String)  -- anything else non-200
deriving DecidableEq, Repr

/-- The `while remaining > 0` loop of `fetch_messages` (lines 61–107),
returning the requests issued and the accumulated messages on success.
The first argument is fuel making the recursion structural: `remaining`
strictly decreases on every continued iteration (the page is nonempty), so
running with `fuel = remaining` never exhausts the fuel; the fuel-exhausted
case is unreachable and mirrors the `remaining = 0` exit. -/
def fetchLoopAux (resp : Option Nat → Nat → HttpResponse) :
    Nat → Nat → Option Nat → Except FetchError (List Req × List Message)
  | _, 0, _ => .ok ([], [])
  | 0, _ + 1, _ => .ok ([], [])
  | fuel + 1, remaining + 1, cursor =>
    let fetchLimit := min (remaining + 1) 100
    let r := resp cursor fetchLimit
    if r.status = 200 then
      match r.messages with
      | [] => .ok ([⟨fetchLimit, cursor⟩], [])
      | m :: ms =>
        let msgs := m :: ms
        let remaining' := remaining + 1 - msgs.length
        -- `messages[-1]['id']`: the last element of the (nonempty) page
        let cursor' := some (ms.getLastD m).id
        if msgs.length < fetchLimit then
          .ok ([⟨fetchLimit, cursor⟩], msgs)
        else
          match fetchLoopAux resp fuel remaining' cursor' with
          | .ok (reqs, rest) => .ok (⟨fetchLimit, cursor⟩ :: reqs, msgs ++ rest)
          | .error e => .error e
    else if r.status = 401 then .error .authenticationError
    else if r.status = 403 then .error .authorizationError
    else if r.status = 404 then .error .notFoundError
    else .error (.httpError r.status r.body)

/-- The loop entered with `remaining` messages still wanted. -/
def fetchLoop (resp : Option Nat → Nat → HttpResponse)
    (remaining : Nat) (cursor : Option Nat) :
    Except FetchError (List Req × List Message) :=
  fetchLoopAux resp remaining remaining cursor

/-- `fetch_messages` (lines 37–108): run the loop from `remaining = limit`
with no cursor. -/
def fetch_messages (resp : Option Nat → Nat → HttpResponse)
    (limit : Nat) : Except FetchError (List Req × List Message) :=
  fetchLoop resp limit none

/-- A well-behaved channel: the full newest-first message history.  A page
request returns the messages strictly after the cursor's message, at most
the requested number, with status 200 — the documented semantics of the
`before` parameter. -/
def serverPage (chan : List Message) (before : Option Nat) (n : Nat) :
    List Message :=
  match before with
  | none => chan.take n
  | some c => (((chan.dropWhile (fun m => m.id ≠ c)).drop 1).take n)

def serverOf (chan : List Message) : Option Nat → Nat → HttpResponse :=
  fun before n => ⟨200, serverPage chan before n, ""⟩

/-! ## Writer (`save_messages`, main.py lines 233–256) and the main flow -/

/-- The `"=" * 80` separator line. -/
def sepLine : String := (List.replicate 80 '=').asString

/-- The four header writes of `save_messages` (lines 243–246): title line,
total-count line, export-timestamp line, separator line plus the blank line
ending the header. -/
def headerText (n : Nat) (now : String) : String :=
  "Discord Messages Export\n"
    ++ "Total messages: " ++ toString n ++ "\n"
    ++ "Exported on: " ++ now ++ "\n"
    ++ sepLine ++ "\n\n"

/-- `save_messages` (lines 233–256): the content written to the output
file — the header, then `format_message(message) + "\n\n"` for each message
of the reversed batch.  `now` stands for
`datetime.now().strftime('%Y-%m-%d %H:%M:%S')`. -/
def save_messages (messages : List Message) (now : String) : String :=
  messages.reverse.foldl (fun acc message => acc ++ (format_message message ++ "\n\n"))
    (headerText messages.length now)

/-- The fetch-and-save path of `main` (lines 304–320): fetch, then write the
messages file only when the fetched list is non-empty (`if messages:`);
on a fetch error the process exits before any write.  Returns the written
file's content, or `none` when no file is written. -/
def runExport (resp : Option Nat → Nat → HttpResponse) (limit : Nat)
    (now : String) : Option String :=
  match fetch_messages resp limit with
  | .error _ => none
  | .ok (_, messages) =>
    if messages.isEmpty then none else some (save_messages messages now)

/-! ## Properties of the deduplication loop -/

/-- Recursive form of the deduplication loop, used to reason about
`uniqueLinks`. -/
def dedupAcc (seen : List String) : List String → List String
  | [] => []
  | x :: xs => if x ∈ seen then dedupAcc seen xs else x :: dedupAcc (x :: seen) xs

theorem uniqueLinks_foldl_eq (links : List String) :
    ∀ seen uniq, (links.foldl (fun acc link =>
        if link ∈ acc.1 then acc else (link :: acc.1, acc.2 ++ [link]))
        (seen, uniq)).2 = uniq ++ dedupAcc seen links := by
  induction links with
  | nil => intro seen uniq; simp [dedupAcc]
  | cons x xs ih =>
    intro seen uniq
    simp only [List.foldl_cons, dedupAcc]
    by_cases hx : x ∈ seen
    · rw [if_pos hx, if_pos hx, ih]
    · rw [if_neg hx, if_neg hx, ih, List.append_assoc]
      rfl

theorem uniqueLinks_eq_dedupAcc (links : List String) :
    uniqueLinks links = dedupAcc [] links := by
  simpa [uniqueLinks] using uniqueLinks_foldl_eq links [] []

theorem mem_dedupAcc {u : String} :
    ∀ (links : List String) (seen : List String),
      u ∈ dedupAcc seen links ↔ u ∈ links ∧ u ∉ seen := by
  intro links
  induction links with
  | nil => intro seen; simp [dedupAcc]
  | cons x xs ih =>
    intro seen
    by_cases hx : x ∈ seen
    · simp only [dedupAcc, if_pos hx, ih, List.mem_cons]
      constructor
      · exact fun h => ⟨Or.inr h.1, h.2⟩
      · rintro ⟨h | h, hs⟩
        · exact absurd (h ▸ hx) hs
        · exact ⟨h, hs⟩
    · simp only [dedupAcc, if_neg hx, List.mem_cons, ih]
      constructor
      · rintro (rfl | ⟨h, hs⟩)
        · exact ⟨Or.inl rfl, hx⟩
        · exact ⟨Or.inr h, fun hu => hs (Or.inr hu)⟩
      · rintro ⟨rfl | h, hs⟩
        · exact Or.inl rfl
        · by_cases hux : u = x
          · exact Or.inl hux
          · exact Or.inr ⟨h, by simp [List.mem_cons, hux, hs]⟩

theorem pairwise_indexOf_dedupAcc :
    ∀ (links : List String) (seen : List String),
      (dedupAcc seen links).Pairwise
        (fun a b => links.indexOf a < links.indexOf b) := by
  intro links
  induction links with
  | nil => intro seen; simp [dedupAcc]
  | cons x xs ih =>
    intro seen
    by_cases hx : x ∈ seen
    · simp only [dedupAcc, if_pos hx]
      refine (ih seen).imp_of_mem (@fun a b ha hb hab => ?_)
      have ha' := (mem_dedupAcc xs seen).1 ha
      have hb' := (mem_dedupAcc xs seen).1 hb
      have hax : a ≠ x := fun h => ha'.2 (by rw [h]; exact hx)
      have hbx : b ≠ x := fun h => hb'.2 (by rw [h]; exact hx)
      rw [List.indexOf_cons_ne _ (Ne.symm hax), List.indexOf_cons_ne _ (Ne.symm hbx)]
      omega
    · simp only [dedupAcc, if_neg hx]
      refine List.pairwise_cons.2 ⟨fun b hb => ?_, ?_⟩
      · have hb' := (mem_dedupAcc xs (x :: seen)).1 hb
        have hbx : b ≠ x := fun h => hb'.2 (by rw [h]; exact List.mem_cons_self x seen)
        rw [List.indexOf_cons_self, List.indexOf_cons_ne _ (Ne.symm hbx)]
        omega
      · refine (ih (x :: seen)).imp_of_mem (@fun a b ha hb hab => ?_)
        have ha' := (mem_dedupAcc xs (x :: seen)).1 ha
        have hb' := (mem_dedupAcc xs (x :: seen)).1 hb
        have hax : a ≠ x := fun h => ha'.2 (by rw [h]; exact List.mem_cons_self x seen)
        have hbx : b ≠ x := fun h => hb'.2 (by rw [h]; exact List.mem_cons_self x seen)
        rw [List.indexOf_cons_ne _ (Ne.symm hax), List.indexOf_cons_ne _ (Ne.symm hbx)]
        omega

theorem nodup_dedupAcc (links : List String) (seen : List String) :
    (dedupAcc seen links).Nodup := by
  refine (pairwise_indexOf_dedupAcc links seen).imp ?_
  intro a b hab
  intro h
  subst h
  omega

/-! ## Per-record decomposition of the collection loop -/

/-- The links a single attachment contributes. -/
def attachmentLinks (att : Attachment) : List String :=
  let url := att.url.getD ""
  if url ≠ "" then [url] else []

/-- The links a single embed contributes: direct URL, image URL, thumbnail
URL, video URL, in that order. -/
def embedLinks (embed : Embed) : List String :=
  (match embed.url with
    | some u => if u ≠ "" then [u] else []
    | none => []) ++
  (match embed.image with
    | some media => match media.url with
      | some u => [u]
      | none => []
    | none => []) ++
  (match embed.thumbnail with
    | some media => match media.url with
      | some u => [u]
      | none => []
    | none => []) ++
  (match embed.video with
    | some media => match media.url with
      | some u => [u]
      | none => []
    | none => [])

/-- The links a single message contributes: content matches first, then the
attachments' links, then the embeds' links. -/
def messageLinks (message : Message) : List String :=
  findUrls (message.content.getD "")
    ++ message.attachments.flatMap attachmentLinks
    ++ message.embeds.flatMap embedLinks

theorem attachmentLoop_eq (attachments : List Attachment) :
    ∀ links, attachmentLoop links attachments
      = links ++ attachments.flatMap attachmentLinks := by
  induction attachments with
  | nil => intro links; simp [attachmentLoop]
  | cons att atts ih =>
    intro links
    simp only [attachmentLoop, List.foldl_cons] at ih ⊢
    rw [ih, List.flatMap_cons]
    by_cases h : att.url.getD "" ≠ ""
    · simp only [attachmentLinks, if_pos h, List.append_assoc, List.singleton_append]
    · simp only [attachmentLinks, if_neg h, List.append_nil, List.nil_append]

theorem embedLoop_eq (embeds : List Embed) :
    ∀ links, embedLoop links embeds = links ++ embeds.flatMap embedLinks := by
  induction embeds with
  | nil => intro links; simp [embedLoop]
  | cons embed es ih =>
    intro links
    simp only [embedLoop, List.foldl_cons] at ih ⊢
    rw [ih, List.flatMap_cons]
    obtain ⟨u, img, th, vid⟩ := embed
    simp only [embedLinks]
    rcases u with _ | u <;> rcases img with _ | ⟨_ | iu⟩ <;>
      rcases th with _ | ⟨_ | tu⟩ <;> rcases vid with _ | ⟨_ | vu⟩ <;>
      simp <;> split <;> simp

theorem rawLinks_eq_flatMap (messages : List Message) :
    rawLinks messages = messages.flatMap messageLinks := by
  have key : ∀ (msgs : List Message) (links : List String),
      msgs.foldl (fun links message =>
        embedLoop (attachmentLoop (links ++ findUrls (message.content.getD ""))
          message.attachments) message.embeds) links
      = links ++ msgs.flatMap messageLinks := by
    intro msgs
    induction msgs with
    | nil => intro links; simp
    | cons m ms ih =>
      intro links
      rw [List.foldl_cons, ih, attachmentLoop_eq, embedLoop_eq, List.flatMap_cons,
        messageLinks]
      simp [List.append_assoc]
  simpa [rawLinks] using key messages []

/-! ## Soundness of the URL matcher -/

theorem tryMatchUrl_shape {cs : List Char} {m : String} {rest : List Char}
    (h : tryMatchUrl cs = some (m, rest)) :
    ∃ scheme run, (scheme = "http://" ∨ scheme = "https://")
      ∧ run ≠ [] ∧ run.all isUrlChar
      ∧ m = (scheme.toList ++ run).asString := by
  unfold tryMatchUrl at h
  split at h
  · dsimp only at h
    split at h
    · exact absurd h (by simp)
    · rename_i rest' hrun
      refine ⟨"https://", rest'.takeWhile isUrlChar, Or.inr rfl, ?_, ?_, ?_⟩
      · simpa [List.isEmpty_iff] using hrun
      · exact List.all_eq_true.2 (fun x hx => List.mem_takeWhile_imp hx)
      · simp only [Option.some.injEq, Prod.mk.injEq] at h
        exact h.1.symm
  · dsimp only at h
    split at h
    · exact absurd h (by simp)
    · rename_i rest' hrun
      refine ⟨"http://", rest'.takeWhile isUrlChar, Or.inl rfl, ?_, ?_, ?_⟩
      · simpa [List.isEmpty_iff] using hrun
      · exact List.all_eq_true.2 (fun x hx => List.mem_takeWhile_imp hx)
      · simp only [Option.some.injEq, Prod.mk.injEq] at h
        exact h.1.symm
  · exact absurd h (by simp)

theorem findUrlsAux_shape :
    ∀ (fuel : Nat) (cs : List Char) (m : String), m ∈ findUrlsAux fuel cs →
      ∃ scheme run, (scheme = "http://" ∨ scheme = "https://")
        ∧ run ≠ [] ∧ run.all isUrlChar
        ∧ m = (scheme.toList ++ run).asString := by
  intro fuel
  induction fuel with
  | zero => intro cs m h; simp [findUrlsAux] at h
  | succ n ih =>
    intro cs m h
    match cs with
    | [] => simp [findUrlsAux] at h
    | c :: rest =>
      rw [findUrlsAux] at h
      revert h
      split
      · rename_i m' rest' hmatch
        intro h
        rcases List.mem_cons.1 h with rfl | h
        · exact tryMatchUrl_shape hmatch
        · exact ih rest' m h
      · intro h
        exact ih rest m h

/-- Every URL the matcher returns starts with one of the two schemes,
followed by a nonempty run of characters of the regex's class. -/
theorem findUrls_shape (s : String) (m : String) (h : m ∈ findUrls s) :
    ∃ scheme run, (scheme = "http://" ∨ scheme = "https://")
      ∧ run ≠ [] ∧ run.all isUrlChar
      ∧ m = (scheme.toList ++ run).asString :=
  findUrlsAux_shape _ _ m h

/-! ## Full characterization of the URL matcher

`SpecMatch` and `SpecScan` are written from the specification's words, with
the character class corrected to the regex's actual one: a recognized
substring starts with `http://` or `https://` and continues with the
*longest* nonempty run of class characters (longest because the remainder
must not begin with a class character), and the matcher scans the input
left to right, emitting the match starting at each position when there is
one (resuming after it) and advancing one character when there is none.
`SpecScan` therefore fixes which substrings are recognized, where in the
input they occur, and in which order; `specScan_unique` shows it determines
the output list completely, and the claim theorem shows `findUrls`
satisfies it. -/

/-- A match at the very start of `cs`: `m` is `http://` or `https://`
followed by a nonempty run of class characters that cannot be extended
(`rest`, the rest of the input, does not begin with a class character),
and `cs = m ++ rest`. -/
def SpecMatch (m rest cs : List Char) : Prop :=
  ∃ scheme run, (scheme = "http://".toList ∨ scheme = "https://".toList)
    ∧ run ≠ [] ∧ (∀ c ∈ run, isUrlChar c)
    ∧ (∀ c, rest.head? = some c → isUrlChar c = false)
    ∧ m = scheme ++ run
    ∧ cs = scheme ++ (run ++ rest)

/-- Left-to-right scan over the input: skip one character when no match
starts at the current position, emit the match and resume after it when
one does. -/
inductive SpecScan : List Char → List String → Prop
  | nil : SpecScan [] []
  | skip (c : Char) (cs : List Char) (out : List String) :
      (∀ m rest, ¬SpecMatch m rest (c :: cs)) → SpecScan cs out →
      SpecScan (c :: cs) out
  | found (m rest cs : List Char) (out : List String) :
      SpecMatch m rest cs → SpecScan rest out →
      SpecScan cs (m.asString :: out)

theorem tryMatchUrl_https_eq (tail : List Char) :
    tryMatchUrl ("https://".toList ++ tail)
      = if (tail.takeWhile isUrlChar).isEmpty then none
        else some (("https://".toList ++ tail.takeWhile isUrlChar).asString,
          tail.dropWhile isUrlChar) := rfl

theorem tryMatchUrl_http_eq (tail : List Char) :
    tryMatchUrl ("http://".toList ++ tail)
      = if (tail.takeWhile isUrlChar).isEmpty then none
        else some (("http://".toList ++ tail.takeWhile isUrlChar).asString,
          tail.dropWhile isUrlChar) := rfl

theorem head?_dropWhile_false {α : Type} (p : α → Bool) (l : List α) (c : α)
    (h : (l.dropWhile p).head? = some c) : p c = false := by
  have hd := List.head?_dropWhile_not p l
  rw [h] at hd
  exact hd

/-- Where the one-position matcher fails, no specified match starts. -/
theorem not_specMatch_of_tryMatchUrl_none {cs : List Char}
    (h : tryMatchUrl cs = none) : ∀ m rest, ¬SpecMatch m rest cs := by
  rintro m rest ⟨scheme, run, hscheme, hne, hall, _, _, hcs⟩
  obtain ⟨rc, run', rfl⟩ := List.exists_cons_of_ne_nil hne
  have hrc : isUrlChar rc := hall rc (List.mem_cons_self _ _)
  rcases hscheme with rfl | rfl
  · rw [hcs, tryMatchUrl_http_eq] at h
    simp [List.cons_append, List.takeWhile_cons, hrc] at h
  · rw [hcs, tryMatchUrl_https_eq] at h
    simp [List.cons_append, List.takeWhile_cons, hrc] at h

/-- Where the one-position matcher succeeds, it returns exactly the
specified match, and the remaining input is strictly shorter. -/
theorem specMatch_of_tryMatchUrl_some {cs : List Char} {ms : String}
    {rest : List Char} (h : tryMatchUrl cs = some (ms, rest)) :
    ∃ m, SpecMatch m rest cs ∧ ms = m.asString ∧ rest.length < cs.length := by
  unfold tryMatchUrl at h
  split at h
  · rename_i tail
    dsimp only at h
    split at h
    · exact absurd h (by simp)
    · rename_i hrun
      simp only [Option.some.injEq, Prod.mk.injEq] at h
      obtain ⟨hm, hrest⟩ := h
      have hlen : rest.length ≤ tail.length :=
        hrest ▸ (List.dropWhile_sublist isUrlChar).length_le
      refine ⟨"https://".toList ++ tail.takeWhile isUrlChar,
        ⟨"https://".toList, tail.takeWhile isUrlChar, Or.inr rfl,
          by simpa [List.isEmpty_iff] using hrun,
          fun c hc => List.mem_takeWhile_imp hc,
          fun c hc => head?_dropWhile_false isUrlChar tail c
            (by rw [hrest]; exact hc),
          rfl, ?_⟩, hm.symm, ?_⟩
      · rw [← hrest, List.takeWhile_append_dropWhile]
        rfl
      · simp only [List.length_cons]
        omega
  · rename_i tail
    dsimp only at h
    split at h
    · exact absurd h (by simp)
    · rename_i hrun
      simp only [Option.some.injEq, Prod.mk.injEq] at h
      obtain ⟨hm, hrest⟩ := h
      have hlen : rest.length ≤ tail.length :=
        hrest ▸ (List.dropWhile_sublist isUrlChar).length_le
      refine ⟨"http://".toList ++ tail.takeWhile isUrlChar,
        ⟨"http://".toList, tail.takeWhile isUrlChar, Or.inl rfl,
          by simpa [List.isEmpty_iff] using hrun,
          fun c hc => List.mem_takeWhile_imp hc,
          fun c hc => head?_dropWhile_false isUrlChar tail c
            (by rw [hrest]; exact hc),
          rfl, ?_⟩, hm.symm, ?_⟩
      · rw [← hrest, List.takeWhile_append_dropWhile]
        rfl
      · simp only [List.length_cons]
        omega
  · exact absurd h (by simp)

/-- `findUrls` (with enough fuel) performs exactly the specified scan. -/
theorem specScan_findUrlsAux :
    ∀ (fuel : Nat) (cs : List Char), cs.length ≤ fuel →
      SpecScan cs (findUrlsAux fuel cs) := by
  intro fuel
  induction fuel with
  | zero =>
    intro cs hcs
    have hnil : cs = [] := List.length_eq_zero.1 (Nat.le_zero.1 hcs)
    subst hnil
    exact SpecScan.nil
  | succ n ih =>
    intro cs hcs
    match cs with
    | [] => exact SpecScan.nil
    | c :: rest =>
      rw [findUrlsAux]
      cases h : tryMatchUrl (c :: rest) with
      | none =>
        exact SpecScan.skip c rest _ (not_specMatch_of_tryMatchUrl_none h)
          (ih rest (by simp only [List.length_cons] at hcs; omega))
      | some p =>
        obtain ⟨ms, rest'⟩ := p
        obtain ⟨m, hsm, hms, hlt⟩ := specMatch_of_tryMatchUrl_some h
        dsimp only
        rw [hms]
        exact SpecScan.found m rest' (c :: rest) _ hsm
          (ih rest' (by simp only [List.length_cons] at hlt hcs; omega))

theorem specMatch_schemes_ne (a b : List Char) :
    "http://".toList ++ a ≠ "https://".toList ++ b := by
  intro h
  have h' : 'h' :: 't' :: 't' :: 'p' :: ':' :: '/' :: '/' :: a
      = 'h' :: 't' :: 't' :: 'p' :: 's' :: ':' :: '/' :: '/' :: b := h
  simp only [List.cons.injEq] at h'
  exact absurd h'.2.2.2.2.1 (by decide)

/-- Runs of class characters that cannot be extended split a list
uniquely. -/
theorem class_run_unique :
    ∀ (run₁ run₂ r₁ r₂ : List Char),
      (∀ c ∈ run₁, isUrlChar c) →
      (∀ c, r₁.head? = some c → isUrlChar c = false) →
      (∀ c ∈ run₂, isUrlChar c) →
      (∀ c, r₂.head? = some c → isUrlChar c = false) →
      run₁ ++ r₁ = run₂ ++ r₂ → run₁ = run₂ ∧ r₁ = r₂ := by
  intro run₁
  induction run₁ with
  | nil =>
    intro run₂ r₁ r₂ _ hmax₁ hall₂ _ happ
    match run₂ with
    | [] => exact ⟨rfl, happ⟩
    | c :: run₂' =>
      exfalso
      rw [List.nil_append] at happ
      have hc : isUrlChar c := hall₂ c (List.mem_cons_self _ _)
      have hc' : isUrlChar c = false := hmax₁ c (by rw [happ]; rfl)
      simp [hc] at hc'
  | cons a run₁' ih =>
    intro run₂ r₁ r₂ hall₁ hmax₁ hall₂ hmax₂ happ
    match run₂ with
    | [] =>
      exfalso
      rw [List.nil_append] at happ
      have ha : isUrlChar a := hall₁ a (List.mem_cons_self _ _)
      have ha' : isUrlChar a = false := hmax₂ a (by rw [← happ]; rfl)
      simp [ha] at ha'
    | b :: run₂' =>
      rw [List.cons_append, List.cons_append] at happ
      injection happ with hab htail
      subst hab
      obtain ⟨h1, h2⟩ := ih run₂' r₁ r₂
        (fun c hc => hall₁ c (List.mem_cons_of_mem _ hc)) hmax₁
        (fun c hc => hall₂ c (List.mem_cons_of_mem _ hc)) hmax₂ htail
      exact ⟨by rw [h1], h2⟩

/-- At any position there is at most one specified match. -/
theorem specMatch_unique {cs m₁ r₁ m₂ r₂ : List Char}
    (h₁ : SpecMatch m₁ r₁ cs) (h₂ : SpecMatch m₂ r₂ cs) :
    m₁ = m₂ ∧ r₁ = r₂ := by
  obtain ⟨s₁, run₁, hs₁, hne₁, hall₁, hmax₁, hm₁, hcs₁⟩ := h₁
  obtain ⟨s₂, run₂, hs₂, hne₂, hall₂, hmax₂, hm₂, hcs₂⟩ := h₂
  have htails : s₁ = s₂ ∧ run₁ ++ r₁ = run₂ ++ r₂ := by
    rcases hs₁ with rfl | rfl <;> rcases hs₂ with rfl | rfl
    · exact ⟨rfl, List.append_cancel_left (hcs₁.symm.trans hcs₂)⟩
    · exact absurd (hcs₁.symm.trans hcs₂) (specMatch_schemes_ne _ _)
    · exact absurd (hcs₂.symm.trans hcs₁) (specMatch_schemes_ne _ _)
    · exact ⟨rfl, List.append_cancel_left (hcs₁.symm.trans hcs₂)⟩
  obtain ⟨rfl, happ⟩ := htails
  obtain ⟨hr, hrest⟩ := class_run_unique run₁ run₂ r₁ r₂ hall₁ hmax₁ hall₂
    hmax₂ happ
  exact ⟨by rw [hm₁, hm₂, hr], hrest⟩

theorem specMatch_ne_nil {m rest : List Char} (h : SpecMatch m rest []) :
    False := by
  obtain ⟨scheme, run, hs, _, _, _, _, hcs⟩ := h
  have hlen := congrArg List.length hcs
  simp only [List.length_nil, List.length_append] at hlen
  rcases hs with rfl | rfl
  · have h7 : "http://".toList.length = 7 := rfl
    omega
  · have h8 : "https://".toList.length = 8 := rfl
    omega

/-- The specified scan determines the output list completely. -/
theorem specScan_unique {cs : List Char} {out₁ : List String}
    (h₁ : SpecScan cs out₁) :
    ∀ out₂, SpecScan cs out₂ → out₁ = out₂ := by
  induction h₁ with
  | nil =>
    intro out₂ h₂
    cases h₂ with
    | nil => rfl
    | found m rest cs out hm _ => exact absurd hm specMatch_ne_nil
  | skip c cs out hno hscan ih =>
    intro out₂ h₂
    cases h₂ with
    | skip _ _ _ _ h₂' => exact ih _ h₂'
    | found m rest cs out' hm _ => exact absurd hm (hno m rest)
  | found m rest cs out hm hscan ih =>
    intro out₂ h₂
    cases h₂ with
    | nil => exact absurd hm specMatch_ne_nil
    | skip c cs' out' hno _ => exact absurd hm (hno m rest)
    | found m' rest' _ out' hm' h₂' =>
      obtain ⟨hmm, hrr⟩ := specMatch_unique hm hm'
      subst hmm
      subst hrr
      rw [ih _ h₂']

/-! ## Properties of the pagination loop -/

theorem fetchLoopAux_fuel (resp : Option Nat → Nat → HttpResponse) :
    ∀ (remaining fuel fuel' : Nat) (cursor : Option Nat),
      remaining ≤ fuel → remaining ≤ fuel' →
      fetchLoopAux resp fuel remaining cursor
        = fetchLoopAux resp fuel' remaining cursor := by
  intro remaining
  induction remaining using Nat.strong_induction_on with
  | _ remaining ih =>
    intro fuel fuel' cursor h h'
    match remaining, fuel, fuel' with
    | 0, fuel, fuel' => cases fuel <;> cases fuel' <;> rfl
    | r + 1, fuel + 1, fuel' + 1 =>
      rw [fetchLoopAux, fetchLoopAux]
      dsimp only
      by_cases h200 : (resp cursor (min (r + 1) 100)).status = 200
      · rw [if_pos h200, if_pos h200]
        cases hpage : (resp cursor (min (r + 1) 100)).messages with
        | nil => rfl
        | cons m ms =>
          dsimp only
          by_cases hlen : (m :: ms).length < min (r + 1) 100
          · rw [if_pos hlen, if_pos hlen]
          · rw [if_neg hlen, if_neg hlen]
            have hrec := ih (r + 1 - (m :: ms).length) (by simp only [List.length_cons]; omega) fuel fuel'
              (some ((ms.getLastD m).id)) (by omega) (by omega)
            rw [hrec]
      · rw [if_neg h200, if_neg h200]

theorem fetchLoop_zero (resp : Option Nat → Nat → HttpResponse)
    (cursor : Option Nat) : fetchLoop resp 0 cursor = .ok ([], []) := rfl

/-- Unfolding the loop one iteration: with `remaining > 0` the loop issues
the request `⟨min remaining 100, cursor⟩` and proceeds on its response. -/
theorem fetchLoop_succ (resp : Option Nat → Nat → HttpResponse)
    (r : Nat) (cursor : Option Nat) :
    fetchLoop resp (r + 1) cursor =
      (let fetchLimit := min (r + 1) 100
       let resp' := resp cursor fetchLimit
       if resp'.status = 200 then
         match resp'.messages with
         | [] => .ok ([⟨fetchLimit, cursor⟩], [])
         | m :: ms =>
           if (m :: ms).length < fetchLimit then
             .ok ([⟨fetchLimit, cursor⟩], m :: ms)
           else
             match fetchLoop resp (r + 1 - (m :: ms).length)
                 (some ((ms.getLastD m).id)) with
             | .ok (reqs, rest) => .ok (⟨fetchLimit, cursor⟩ :: reqs, (m :: ms) ++ rest)
             | .error e => .error e
       else if resp'.status = 401 then .error .authenticationError
       else if resp'.status = 403 then .error .authorizationError
       else if resp'.status = 404 then .error .notFoundError
       else .error (.httpError resp'.status resp'.body)) := by
  show fetchLoopAux resp (r + 1) (r + 1) cursor = _
  rw [fetchLoopAux]
  dsimp only
  by_cases h200 : (resp cursor (min (r + 1) 100)).status = 200
  · rw [if_pos h200, if_pos h200]
    cases hpage : (resp cursor (min (r + 1) 100)).messages with
    | nil => rfl
    | cons m ms =>
      dsimp only
      by_cases hlen : (m :: ms).length < min (r + 1) 100
      · rw [if_pos hlen, if_pos hlen]
      · rw [if_neg hlen, if_neg hlen]
        rw [fetchLoopAux_fuel resp (r + 1 - (m :: ms).length) r
          (r + 1 - (m :: ms).length) (some ((ms.getLastD m).id)) (by simp only [List.length_cons]; omega)
          (Nat.le_refl _)]
        rfl
  · rw [if_neg h200, if_neg h200]

/-- Stop condition (a): a page with zero messages ends the loop after its
request. -/
theorem fetchLoop_page_empty (resp : Option Nat → Nat → HttpResponse)
    (r : Nat) (cursor : Option Nat)
    (h200 : (resp cursor (min (r + 1) 100)).status = 200)
    (hnil : (resp cursor (min (r + 1) 100)).messages = []) :
    fetchLoop resp (r + 1) cursor = .ok ([⟨min (r + 1) 100, cursor⟩], []) := by
  rw [fetchLoop_succ]
  dsimp only
  rw [if_pos h200, hnil]

/-- Stop condition (b): a page shorter than requested ends the loop after
its request. -/
theorem fetchLoop_page_short (resp : Option Nat → Nat → HttpResponse)
    (r : Nat) (cursor : Option Nat) (m : Message) (ms : List Message)
    (h200 : (resp cursor (min (r + 1) 100)).status = 200)
    (hpage : (resp cursor (min (r + 1) 100)).messages = m :: ms)
    (hlen : (m :: ms).length < min (r + 1) 100) :
    fetchLoop resp (r + 1) cursor = .ok ([⟨min (r + 1) 100, cursor⟩], m :: ms) := by
  rw [fetchLoop_succ]
  dsimp only
  rw [if_pos h200, hpage]
  dsimp only
  rw [if_pos hlen]

/-- A full page: the loop records the request, decreases `remaining` by the
page length, and continues with the cursor set to the id of the page's
last message. -/
theorem fetchLoop_page_full (resp : Option Nat → Nat → HttpResponse)
    (r : Nat) (cursor : Option Nat) (m : Message) (ms : List Message)
    (h200 : (resp cursor (min (r + 1) 100)).status = 200)
    (hpage : (resp cursor (min (r + 1) 100)).messages = m :: ms)
    (hlen : ¬(m :: ms).length < min (r + 1) 100) :
    fetchLoop resp (r + 1) cursor =
      match fetchLoop resp (r + 1 - (m :: ms).length) (some ((ms.getLastD m).id)) with
      | .ok (reqs, rest) =>
        .ok (⟨min (r + 1) 100, cursor⟩ :: reqs, (m :: ms) ++ rest)
      | .error e => .error e := by
  rw [fetchLoop_succ]
  dsimp only
  rw [if_pos h200, hpage]
  dsimp only
  rw [if_neg hlen]

/-- A 401 response aborts the run with the authentication error. -/
theorem fetchLoop_401 (resp : Option Nat → Nat → HttpResponse)
    (r : Nat) (cursor : Option Nat)
    (h : (resp cursor (min (r + 1) 100)).status = 401) :
    fetchLoop resp (r + 1) cursor = .error .authenticationError := by
  rw [fetchLoop_succ]
  dsimp only
  rw [h]
  rfl

/-- A 403 response aborts the run with the authorization error. -/
theorem fetchLoop_403 (resp : Option Nat → Nat → HttpResponse)
    (r : Nat) (cursor : Option Nat)
    (h : (resp cursor (min (r + 1) 100)).status = 403) :
    fetchLoop resp (r + 1) cursor = .error .authorizationError := by
  rw [fetchLoop_succ]
  dsimp only
  rw [h]
  rfl

/-- A 404 response aborts the run with the not-found error. -/
theorem fetchLoop_404 (resp : Option Nat → Nat → HttpResponse)
    (r : Nat) (cursor : Option Nat)
    (h : (resp cursor (min (r + 1) 100)).status = 404) :
    fetchLoop resp (r + 1) cursor = .error .notFoundError := by
  rw [fetchLoop_succ]
  dsimp only
  rw [h]
  rfl

/-- Any other non-success status aborts the run with the generic HTTP
error carrying the status and body. -/
theorem fetchLoop_http (resp : Option Nat → Nat → HttpResponse)
    (r : Nat) (cursor : Option Nat)
    (h200 : (resp cursor (min (r + 1) 100)).status ≠ 200)
    (h401 : (resp cursor (min (r + 1) 100)).status ≠ 401)
    (h403 : (resp cursor (min (r + 1) 100)).status ≠ 403)
    (h404 : (resp cursor (min (r + 1) 100)).status ≠ 404) :
    fetchLoop resp (r + 1) cursor =
      .error (.httpError (resp cursor (min (r + 1) 100)).status
        (resp cursor (min (r + 1) 100)).body) := by
  rw [fetchLoop_succ]
  dsimp only
  rw [if_neg h200, if_neg h401, if_neg h403, if_neg h404]

/-- A successful loop entered with positive `remaining` has issued at least
one request. -/
theorem fetchLoop_requests_ne_nil (resp : Option Nat → Nat → HttpResponse)
    (r : Nat) (cursor : Option Nat) (reqs : List Req) (msgs : List Message)
    (h : fetchLoop resp (r + 1) cursor = .ok (reqs, msgs)) : reqs ≠ [] := by
  rw [fetchLoop_succ] at h
  dsimp only at h
  by_cases h200 : (resp cursor (min (r + 1) 100)).status = 200
  · rw [if_pos h200] at h
    revert h
    split
    · intro h
      cases h
      simp
    · split
      · intro h
        cases h
        simp
      · split
        · intro h
          cases h
          simp
        · intro h
          cases h
  · exfalso
    rw [if_neg h200] at h
    split at h
    · cases h
    · split at h
      · cases h
      · split at h <;> cases h

/-- With `1 ≤ N ≤ 100` against a well-behaved channel, the whole fetch is a
single request of size `N`, returning the first `N` messages. -/
theorem fetchLoop_single_page (chan : List Message) (N : Nat)
    (h1 : 0 < N) (h2 : N ≤ 100) :
    fetch_messages (serverOf chan) N = .ok ([⟨N, none⟩], chan.take N) := by
  obtain ⟨r, rfl⟩ : ∃ r, N = r + 1 := ⟨N - 1, by omega⟩
  have hmin : min (r + 1) 100 = r + 1 := by omega
  have h200 : (serverOf chan none (min (r + 1) 100)).status = 200 := rfl
  have hmsgs : (serverOf chan none (min (r + 1) 100)).messages
      = chan.take (r + 1) := by
    rw [hmin]; rfl
  show fetchLoop (serverOf chan) (r + 1) none = _
  cases hpage : chan.take (r + 1) with
  | nil =>
    rw [fetchLoop_page_empty (serverOf chan) r none h200 (by rw [hmsgs, hpage]),
      hmin]
  | cons m ms =>
    by_cases hlen : (m :: ms).length < min (r + 1) 100
    · rw [fetchLoop_page_short (serverOf chan) r none m ms h200
        (by rw [hmsgs, hpage]) hlen, hmin]
    · have htake : (chan.take (r + 1)).length ≤ r + 1 :=
        List.length_take_le (r + 1) chan
      have hlen' : (m :: ms).length = r + 1 := by
        rw [← hpage] at hlen ⊢
        omega
      rw [fetchLoop_page_full (serverOf chan) r none m ms h200
        (by rw [hmsgs, hpage]) hlen, hlen', Nat.sub_self, fetchLoop_zero]
      dsimp only
      rw [hmin, ← hpage, List.append_nil]

/-! ## Structure of the rendered output -/

theorem foldl_append_eq_join :
    ∀ (l : List String) (init : String),
      l.foldl (fun acc s => acc ++ s) init = init ++ String.join l := by
  intro l
  induction l with
  | nil => intro init; rw [List.foldl_nil]; exact (String.append_empty init).symm
  | cons s rest ih =>
    intro init
    rw [List.foldl_cons, ih]
    have hjoin : String.join (s :: rest) = s ++ String.join rest := by
      show (s :: rest).foldl (fun acc t => acc ++ t) "" = _
      rw [List.foldl_cons, ih, String.empty_append]
    rw [hjoin, String.append_assoc]

theorem foldl_append_map_eq_join {α : Type} (g : α → String) (l : List α)
    (init : String) :
    l.foldl (fun acc x => acc ++ g x) init = init ++ String.join (l.map g) := by
  rw [← List.foldl_map g (fun acc s => acc ++ s) l init, foldl_append_eq_join]

/-- The author lookup of `format_message` (lines 121–122):
`message.get('author', {}).get('username', 'Unknown')`. -/
def usernameOf (message : Message) : String :=
  match message.author with
  | some a => a.username.getD "Unknown"
  | none => "Unknown"

/-- Everything `format_message` appends after its first line: the
attachments block (lines 137–141) and the embeds summary (lines 144–146). -/
def formatRest (message : Message) : String :=
  (if message.attachments.isEmpty then ""
   else "\n  Attachments:" ++ String.join (message.attachments.map (fun att =>
     "\n    - " ++ att.filename.getD "file" ++ ": " ++ att.url.getD "")))
  ++ (if message.embeds.isEmpty then ""
      else "\n  Embeds: " ++ toString message.embeds.length ++ " embed(s)")

theorem format_message_structure (message : Message) :
    format_message message =
      "[" ++ formattedTime (message.timestamp.getD "") ++ "] "
        ++ usernameOf message ++ ": " ++ message.content.getD ""
        ++ formatRest message := by
  unfold format_message formatRest usernameOf
  dsimp only
  have hfold : ∀ (init : String),
      message.attachments.foldl (fun acc att =>
        acc ++ ("\n    - " ++ (att.filename.getD "file" ++ (": " ++ att.url.getD ""))))
        init
      = init ++ String.join (message.attachments.map (fun att =>
          "\n    - " ++ (att.filename.getD "file" ++ (": " ++ att.url.getD "")))) :=
    fun init => foldl_append_map_eq_join _ _ init
  by_cases hA : message.attachments.isEmpty <;> by_cases hE : message.embeds.isEmpty <;>
    simp [hA, hE, String.append_assoc, hfold]

/-- The `try`/`except` around the timestamp recovers every parse failure by
emitting the raw string; on success the parsed fields are rendered. -/
theorem formattedTime_cases (ts : String) :
    (∃ dt, fromisoformat (pyReplace ts "Z" "+00:00") = some dt
        ∧ formattedTime ts = strftimeUTC dt)
    ∨ (fromisoformat (pyReplace ts "Z" "+00:00") = none ∧ formattedTime ts = ts) := by
  unfold formattedTime
  cases h : fromisoformat (pyReplace ts "Z" "+00:00") with
  | some dt => exact Or.inl ⟨dt, rfl, rfl⟩
  | none => exact Or.inr ⟨rfl, rfl⟩

theorem save_messages_structure (messages : List Message) (now : String) :
    save_messages messages now =
      headerText messages.length now
        ++ String.join (messages.reverse.map (fun m => format_message m ++ "\n\n")) := by
  unfold save_messages
  exact foldl_append_map_eq_join _ _ _

/-! ## Claim theorems -/

/-- Claim C1, as written, is false: the regex's character class is the
*range* `$`–`_`, so `/` (among others) is part of matched URLs although it
is outside the spec's listed symbol set.  Concretely `https://a.co/x` is
matched whole, while `/` fails the listed set. -/
theorem claim1_counterexample :
    findUrls "https://a.co/x" = ["https://a.co/x"]
      ∧ specUrlChar '/' = false
      ∧ "https://a.co/x".toList = "https://".toList ++ "a.co/x".toList
      ∧ '/' ∈ "a.co/x".toList := by
  refine ⟨by decide, by decide, by decide, by decide⟩

/-- Claim C1 (amended): for every content string the matcher recognizes
exactly those substrings that start with `http://` or `https://` followed
by the longest nonempty run of characters of the regex's actual class
`isUrlChar` — letters, digits, the ASCII range `$`–`_` (which adds `/ : ;
< = > ? @ [ \ ] ^` and `'`), and `! * ( ) , %`.  `findUrls` satisfies the
left-to-right scan specification `SpecScan` (matches located in the input,
runs maximal, a match wherever one exists, one-character advance where
none does), that specification has a unique output list, and consequently
no character outside the class is ever part of a matched URL. -/
theorem claim1_url_charset (s : String) :
    SpecScan s.toList (findUrls s)
    ∧ (∀ out, SpecScan s.toList out → out = findUrls s)
    ∧ (∀ m ∈ findUrls s, ∃ scheme run,
        (scheme = "http://" ∨ scheme = "https://")
        ∧ run ≠ [] ∧ run.all isUrlChar
        ∧ m = (scheme.toList ++ run).asString) :=
  ⟨specScan_findUrlsAux s.toList.length s.toList (Nat.le_refl _),
   fun _ h =>
     specScan_unique h _ (specScan_findUrlsAux s.toList.length s.toList (Nat.le_refl _)),
   fun m h => findUrls_shape s m h⟩

/-- Witness for C1's amended theorem at concrete inputs: the scan
specification holds of a concrete extraction, uniqueness applied to the
explicit empty-scan derivation, and the shape conjunct at a concrete
match. -/
theorem claim1_url_charset_witness :
    SpecScan "see https://a.co/x now".toList (findUrls "see https://a.co/x now")
    ∧ ([] : List String) = findUrls ""
    ∧ (∃ scheme run, (scheme = "http://" ∨ scheme = "https://")
        ∧ run ≠ [] ∧ run.all isUrlChar
        ∧ "https://a.co/x" = (scheme.toList ++ run).asString) :=
  ⟨(claim1_url_charset "see https://a.co/x now").1,
   (claim1_url_charset "").2.1 [] SpecScan.nil,
   (claim1_url_charset "see https://a.co/x now").2.2 "https://a.co/x" (by decide)⟩

/-- Claim C2: `extract_links` is globally duplicate-free (exact string
equality), keeps first-seen order (the output is strictly ordered by the
index of each URL's first occurrence in the collected link stream), loses
no URL, and on the single-message batch
`"see https://a.co/x and https://a.co/x again"` returns exactly
`["https://a.co/x"]`. -/
theorem claim2_dedup :
    (∀ messages : List Message,
      (extract_links messages).Nodup
      ∧ (extract_links messages).Pairwise
          (fun a b => (rawLinks messages).indexOf a < (rawLinks messages).indexOf b)
      ∧ (∀ u, u ∈ extract_links messages ↔ u ∈ rawLinks messages))
    ∧ extract_links
        [⟨1, none, none, some "see https://a.co/x and https://a.co/x again", [], []⟩]
        = ["https://a.co/x"] := by
  refine ⟨fun messages => ?_, by decide⟩
  have hex : extract_links messages = dedupAcc [] (rawLinks messages) :=
    uniqueLinks_eq_dedupAcc (rawLinks messages)
  rw [hex]
  refine ⟨nodup_dedupAcc _ _, pairwise_indexOf_dedupAcc _ _, fun u => ?_⟩
  rw [mem_dedupAcc]
  simp

/-- Claim C3: the collection pass visits messages in fetch order and, per
message, gathers content matches, then attachment URLs, then per embed its
direct, image, thumbnail and video URLs, in that order; checked both as a
structural decomposition of the loop and on a concrete batch exercising
every position. -/
theorem claim3_scan_order :
    (∀ messages : List Message,
      rawLinks messages = messages.flatMap messageLinks
      ∧ extract_links messages = uniqueLinks (messages.flatMap messageLinks))
    ∧ (∀ message : Message,
      messageLinks message = findUrls (message.content.getD "")
        ++ message.attachments.flatMap attachmentLinks
        ++ message.embeds.flatMap embedLinks)
    ∧ extract_links
        [⟨2, none, none, some "a http://c1 b http://c2",
          [⟨some "f1", some "http://a1"⟩, ⟨some "f2", some "http://a2"⟩],
          [⟨some "http://e1", some ⟨some "http://i1"⟩, some ⟨some "http://t1"⟩,
            some ⟨some "http://v1"⟩⟩]⟩,
         ⟨1, none, none, some "see http://m2", [], []⟩]
        = ["http://c1", "http://c2", "http://a1", "http://a2", "http://e1",
           "http://i1", "http://t1", "http://v1", "http://m2"] := by
  refine ⟨fun messages => ⟨rawLinks_eq_flatMap messages, ?_⟩, fun message => rfl,
    by decide⟩
  show uniqueLinks (rawLinks messages) = _
  rw [rawLinks_eq_flatMap]

/-- Claim C10: an attachment URL and an embed's direct URL are appended
only when non-empty, but image, thumbnail and video URLs are appended
whenever their `url` key is present, empty or not — so a batch can yield
an empty-string link. -/
theorem claim10_truthiness :
    (∀ fname : Option String,
      rawLinks [⟨1, none, none, none, [⟨fname, some ""⟩, ⟨fname, none⟩], []⟩] = [])
    ∧ rawLinks [⟨1, none, none, none, [], [⟨some "", none, none, none⟩]⟩] = []
    ∧ (∀ u : String,
      rawLinks [⟨1, none, none, none, [],
        [⟨none, some ⟨some u⟩, some ⟨some u⟩, some ⟨some u⟩⟩]⟩] = [u, u, u])
    ∧ extract_links [⟨1, none, none, none, [⟨some "f", some ""⟩],
        [⟨some "", some ⟨some ""⟩, none, none⟩]⟩] = [""] := by
  exact ⟨fun fname => rfl, rfl, fun u => rfl, by decide⟩

/-- A message carrying only an id, as pagination needs. -/
def plainMsg (i : Nat) : Message := ⟨i, none, none, none, [], []⟩

/-- A 300-message channel, newest first, with descending ids 300, …, 1. -/
def chan300 : List Message := (List.range 300).map (fun i => plainMsg (300 - i))

/-- A 3-message channel with ids 3, 2, 1. -/
def chanSmall : List Message := [plainMsg 3, plainMsg 2, plainMsg 1]

set_option maxRecDepth 8000

/-- Claim C4: every page request asks for `min(remaining, 100)` messages,
the first request carries no cursor, and each subsequent request's `before`
is the id of the previous page's last message; fetching 250 from a
300-message channel issues exactly the requests
`(100, –) (100, before 201) (50, before 101)`, the cursors being the last
ids of the prior pages. -/
theorem claim4_pagination :
    (∀ (resp : Option Nat → Nat → HttpResponse) (r : Nat) (cursor : Option Nat)
      (m : Message) (ms : List Message),
      (resp cursor (min (r + 1) 100)).status = 200 →
      (resp cursor (min (r + 1) 100)).messages = m :: ms →
      ¬(m :: ms).length < min (r + 1) 100 →
      fetchLoop resp (r + 1) cursor =
        match fetchLoop resp (r + 1 - (m :: ms).length)
            (some ((ms.getLastD m).id)) with
        | .ok (reqs, rest) =>
          .ok (⟨min (r + 1) 100, cursor⟩ :: reqs, (m :: ms) ++ rest)
        | .error e => .error e)
    ∧ (∀ (resp : Option Nat → Nat → HttpResponse) (limit : Nat),
        fetch_messages resp limit = fetchLoop resp limit none)
    ∧ fetch_messages (serverOf chan300) 250 =
        .ok ([⟨100, none⟩, ⟨100, some 201⟩, ⟨50, some 101⟩], chan300.take 250)
    ∧ (chan300.take 100).getLast?.map Message.id = some 201
    ∧ (chan300.take 200).getLast?.map Message.id = some 101 := by
  refine ⟨fun resp r cursor m ms h200 hpage hlen =>
      fetchLoop_page_full resp r cursor m ms h200 hpage hlen,
    fun resp limit => rfl, by rfl, by rfl, by rfl⟩

/-- Witness for C4's step conjunct at a concrete page: a full page of 2 on
a 3-message channel chains the cursor to the page's last id, 2. -/
theorem claim4_pagination_witness :
    fetchLoop (serverOf chanSmall) 2 none =
      match fetchLoop (serverOf chanSmall) 0 (some 2) with
      | .ok (reqs, rest) => .ok (⟨2, none⟩ :: reqs, [plainMsg 3, plainMsg 2] ++ rest)
      | .error e => .error e :=
  claim4_pagination.1 (serverOf chanSmall) 1 none (plainMsg 3) [plainMsg 2]
    rfl rfl (by decide)

/-- Claim C5: the loop stops exactly on an empty page, a short page, or on
reaching the limit (otherwise a successful loop always issued at least one
request and, on a full page with remaining budget, continues); hence for
`1 ≤ N ≤ 100` the whole fetch is one request of size `N` returning at most
`N` messages. -/
theorem claim5_stop_conditions :
    (∀ (resp : Option Nat → Nat → HttpResponse) (r : Nat) (cursor : Option Nat),
      (resp cursor (min (r + 1) 100)).status = 200 →
      (resp cursor (min (r + 1) 100)).messages = [] →
      fetchLoop resp (r + 1) cursor = .ok ([⟨min (r + 1) 100, cursor⟩], []))
    ∧ (∀ (resp : Option Nat → Nat → HttpResponse) (r : Nat) (cursor : Option Nat)
        (m : Message) (ms : List Message),
        (resp cursor (min (r + 1) 100)).status = 200 →
        (resp cursor (min (r + 1) 100)).messages = m :: ms →
        (m :: ms).length < min (r + 1) 100 →
        fetchLoop resp (r + 1) cursor = .ok ([⟨min (r + 1) 100, cursor⟩], m :: ms))
    ∧ (∀ (resp : Option Nat → Nat → HttpResponse) (r : Nat) (cursor : Option Nat)
        (m : Message) (ms : List Message),
        (resp cursor (min (r + 1) 100)).status = 200 →
        (resp cursor (min (r + 1) 100)).messages = m :: ms →
        ¬(m :: ms).length < min (r + 1) 100 →
        r + 1 - (m :: ms).length = 0 →
        fetchLoop resp (r + 1) cursor = .ok ([⟨min (r + 1) 100, cursor⟩], m :: ms))
    ∧ (∀ (resp : Option Nat → Nat → HttpResponse) (r : Nat) (cursor : Option Nat)
        (reqs : List Req) (msgs : List Message),
        fetchLoop resp (r + 1) cursor = .ok (reqs, msgs) → reqs ≠ [])
    ∧ (∀ (chan : List Message) (N : Nat), 0 < N → N ≤ 100 →
        fetch_messages (serverOf chan) N = .ok ([⟨N, none⟩], chan.take N)
        ∧ (chan.take N).length ≤ N) := by
  refine ⟨fetchLoop_page_empty, fetchLoop_page_short,
    fun resp r cursor m ms h200 hpage hlen hz => ?_,
    fetchLoop_requests_ne_nil,
    fun chan N h1 h2 =>
      ⟨fetchLoop_single_page chan N h1 h2, List.length_take_le N chan⟩⟩
  rw [fetchLoop_page_full resp r cursor m ms h200 hpage hlen, hz, fetchLoop_zero]
  dsimp only
  rw [List.append_nil]

/-- Witness for C5 at concrete inputs: an empty channel stops after one
request of size 5, and a limit of 5 against the 3-message channel is one
request returning its 3 messages. -/
theorem claim5_stop_conditions_witness :
    fetchLoop (serverOf ([] : List Message)) 5 none = .ok ([⟨5, none⟩], [])
    ∧ fetch_messages (serverOf chanSmall) 5 = .ok ([⟨5, none⟩], chanSmall.take 5)
    ∧ (chanSmall.take 5).length ≤ 5 :=
  ⟨claim5_stop_conditions.1 (serverOf []) 4 none rfl rfl,
   (claim5_stop_conditions.2.2.2.2 chanSmall 5 (by decide) (by decide)).1,
   (claim5_stop_conditions.2.2.2.2 chanSmall 5 (by decide) (by decide)).2⟩

/-- Claim C6: the render's first line is
`[<formatted timestamp>] <author>: <content>`; the timestamp is either
parsed (after replacing `Z` with `+00:00`) and rendered as
`YYYY-MM-DD HH:MM:SS UTC`, or — on any parse failure — emitted raw and
verbatim, never raising; checked on both a parsing and a non-parsing
concrete timestamp. -/
theorem claim6_render :
    (∀ message : Message,
      format_message message =
        "[" ++ formattedTime (message.timestamp.getD "") ++ "] "
          ++ usernameOf message ++ ": " ++ message.content.getD ""
          ++ formatRest message)
    ∧ (∀ ts : String,
      (∃ dt, fromisoformat (pyReplace ts "Z" "+00:00") = some dt
          ∧ formattedTime ts = strftimeUTC dt)
      ∨ (fromisoformat (pyReplace ts "Z" "+00:00") = none ∧ formattedTime ts = ts))
    ∧ formattedTime "2023-01-15T10:30:45Z" = "2023-01-15 10:30:45 UTC"
    ∧ formattedTime "not a timestamp" = "not a timestamp"
    ∧ format_message ⟨1, some ⟨some "alice"⟩, some "2023-01-15T10:30:45Z",
        some "hi", [], []⟩ = "[2023-01-15 10:30:45 UTC] alice: hi" := by
  exact ⟨format_message_structure, formattedTime_cases, by decide, by decide,
    by decide⟩

/-- Claim C7: a 401 on any page request aborts with the distinct
authentication error, 403/404/other statuses abort with their own distinct
errors, an aborted fetch returns no messages, and no output file is
written. -/
theorem claim7_errors :
    (∀ (resp : Option Nat → Nat → HttpResponse) (r : Nat) (cursor : Option Nat),
      (resp cursor (min (r + 1) 100)).status = 401 →
      fetchLoop resp (r + 1) cursor = .error .authenticationError)
    ∧ (∀ (resp : Option Nat → Nat → HttpResponse) (r : Nat) (cursor : Option Nat),
      (resp cursor (min (r + 1) 100)).status = 403 →
      fetchLoop resp (r + 1) cursor = .error .authorizationError)
    ∧ (∀ (resp : Option Nat → Nat → HttpResponse) (r : Nat) (cursor : Option Nat),
      (resp cursor (min (r + 1) 100)).status = 404 →
      fetchLoop resp (r + 1) cursor = .error .notFoundError)
    ∧ (∀ (resp : Option Nat → Nat → HttpResponse) (r : Nat) (cursor : Option Nat),
      (resp cursor (min (r + 1) 100)).status ≠ 200 →
      (resp cursor (min (r + 1) 100)).status ≠ 401 →
      (resp cursor (min (r + 1) 100)).status ≠ 403 →
      (resp cursor (min (r + 1) 100)).status ≠ 404 →
      fetchLoop resp (r + 1) cursor =
        .error (.httpError (resp cursor (min (r + 1) 100)).status
          (resp cursor (min (r + 1) 100)).body))
    ∧ (FetchError.authenticationError ≠ FetchError.authorizationError
      ∧ FetchError.authenticationError ≠ FetchError.notFoundError
      ∧ FetchError.authorizationError ≠ FetchError.notFoundError
      ∧ ∀ (status : Nat) (body : String),
          FetchError.httpError status body ≠ FetchError.authenticationError
          ∧ FetchError.httpError status body ≠ FetchError.authorizationError
          ∧ FetchError.httpError status body ≠ FetchError.notFoundError)
    ∧ (∀ (resp : Option Nat → Nat → HttpResponse) (limit : Nat) (now : String),
      0 < limit →
      (resp none (min limit 100)).status = 401 →
      runExport resp limit now = none) := by
  refine ⟨fetchLoop_401, fetchLoop_403, fetchLoop_404, fetchLoop_http,
    ⟨by simp, by simp, by simp, fun status body => ⟨by simp, by simp, by simp⟩⟩,
    fun resp limit now hpos h401 => ?_⟩
  obtain ⟨r, rfl⟩ : ∃ r, limit = r + 1 := ⟨limit - 1, by omega⟩
  unfold runExport fetch_messages
  rw [fetchLoop_401 resp r none h401]

/-- Witness for C7 at a concrete always-401 server. -/
theorem claim7_errors_witness :
    fetchLoop (fun _ _ => ⟨401, [], "unauthorized"⟩) 50 none
      = .error .authenticationError
    ∧ runExport (fun _ _ => ⟨401, [], "unauthorized"⟩) 50 "2024-05-01 12:00:00"
      = none
    ∧ fetchLoop (fun _ _ => ⟨500, [], "oops"⟩) 50 none
      = .error (.httpError 500 "oops") :=
  ⟨claim7_errors.1 (fun _ _ => ⟨401, [], "unauthorized"⟩) 49 none rfl,
   claim7_errors.2.2.2.2.2 (fun _ _ => ⟨401, [], "unauthorized"⟩) 50
     "2024-05-01 12:00:00" (by decide) rfl,
   claim7_errors.2.2.2.1 (fun _ _ => ⟨500, [], "oops"⟩) 49 none
     (by decide) (by decide) (by decide) (by decide)⟩

/-- Claim C8: the messages file is the 4-line header followed by one
rendered block per message, each terminated by a blank line, in the
reverse of fetch order — exactly `N` blocks for `N` messages, each equal
to `format_message` of the corresponding message. -/
theorem claim8_roundtrip :
    ∀ (messages : List Message) (now : String),
      save_messages messages now =
        headerText messages.length now
          ++ String.join (messages.reverse.map (fun m => format_message m ++ "\n\n"))
      ∧ (messages.reverse.map (fun m => format_message m ++ "\n\n")).length
          = messages.length
      ∧ messages.reverse.map format_message = (messages.map format_message).reverse :=
  fun messages now =>
    ⟨save_messages_structure messages now, by simp, by simp⟩

/-- Claim C9, as written, is false: after fetching zero messages the main
flow (`if messages:`) skips the save entirely, so no file at all is
written for an empty batch. -/
theorem claim9_counterexample :
    runExport (serverOf []) 100 "2024-05-01 12:00:00" = none := by rfl

/-- Claim C9 (amended): `save_messages` itself, applied to an empty list,
produces exactly the 4-line header — title, total count `0`, export
timestamp, 80-character separator — and no message blocks; but the
program's main flow writes no file when the fetched batch is empty. -/
theorem claim9_empty_export :
    (∀ now : String, save_messages [] now = headerText 0 now)
    ∧ sepLine.length = 80
    ∧ ((save_messages [] "2024-05-01 12:00:00").toList.splitOn '\n').map
          List.asString
        = ["Discord Messages Export", "Total messages: 0",
           "Exported on: 2024-05-01 12:00:00", sepLine, "", ""]
    ∧ runExport (serverOf []) 100 "2024-05-01 12:00:00" = none := by
  exact ⟨fun now => rfl, by decide, by decide, by rfl⟩

end DMF
